import Mathlib

/-!
Shallow embedding of the order-api-backend-application matching engine.

Sources embedded (paths relative to the repository root):
* `src/shared/models/order.py` — the `Order` model and its methods
  `mark_as_filled`, `mark_as_cancelled`, `update_trade`.
* `src/shared/models/trade.py` — the `Trade` model and `mark_as_settled`.
* `src/services/order_management/order_book.py` — the in-memory book:
  `_add_buy_order`, `_add_sell_order`, `_match_buy_order`,
  `_match_sell_order`, `add_order`, `cancel_order`.
* `src/services/order_management/views.py` — the `create`, `update`
  (modify) and `destroy` (cancel) handlers.
* `src/services/trade_service/views.py` — `TradeSettlementView.post` and
  `OrderBookSnapshotView.get`.

Conventions: Django `Decimal` prices are embedded as `ℚ`; quantities are
`ℕ`; UUIDs are embedded as `ℕ` identifiers; timestamps as `ℕ`.  Status
strings map to `OrderStatus` constructors ('PARTIALLY_FILLED' becomes
`OrderStatus.PartFilled`, the rest keep their names).  Persisting a
`DecimalField(decimal_places=2)` quantizes the value to two decimal
places with round-half-even (Django `utils.format_number`); this is
modelled by `quantize2`.
-/

inductive OrderStatus where
  | Pending
  | Active
  | PartFilled
  | Filled
  | Cancelled
  | Rejected
deriving DecidableEq, Repr

/-- `Order` model, `src/shared/models/order.py` lines 12-101. -/
structure Order where
  order_id : ℕ
  side : ℤ
  quantity : ℕ
  price : ℚ
  remaining_quantity : ℕ
  traded_quantity : ℕ
  average_traded_price : ℚ
  status : OrderStatus
  is_active : Bool
  created_at : ℕ
deriving DecidableEq, Repr

/-- `Trade` model, `src/shared/models/trade.py` lines 12-76: execution
price, quantity, the two order references, and the settlement fields.
`Trade.objects.create` leaves `is_settled = False` and
`settlement_timestamp = None`. -/
structure Trade where
  price : ℚ
  quantity : ℕ
  bid_order : ℕ
  ask_order : ℕ
  is_settled : Bool
  settlement_timestamp : Option ℕ
deriving DecidableEq, Repr

/-- `Order.mark_as_filled`, `order.py` lines 108-115. -/
def Order.mark_as_filled (o : Order) : Order :=
  { o with status := .Filled, is_active := false, remaining_quantity := 0 }

/-- `Order.mark_as_cancelled`, `order.py` lines 117-124.  (Never invoked
by any view or by the book; the live cancel paths mutate the fields
directly.) -/
def Order.mark_as_cancelled (o : Order) : Order :=
  { o with status := .Cancelled, is_active := false, remaining_quantity := 0 }

/-- `Order.update_trade`, `order.py` lines 126-149.  The guard raises
`ValueError` before any field is touched; the raise is embedded as
`Except.error`.  The average recomputes the total value from the current
in-memory average: `self.average_traded_price * (self.traded_quantity -
trade_quantity)` reads the already-incremented `traded_quantity`, so the
multiplier is the pre-fill traded quantity. -/
def Order.update_trade (o : Order) (trade_quantity : ℕ) (trade_price : ℚ) :
    Except String Order :=
  if trade_quantity > o.remaining_quantity then
    Except.error "Trade quantity exceeds remaining quantity"
  else
    let o1 : Order := { o with
      remaining_quantity := o.remaining_quantity - trade_quantity,
      traded_quantity := o.traded_quantity + trade_quantity }
    let o2 : Order :=
      if 0 < o1.traded_quantity then
        { o1 with average_traded_price :=
            (o.average_traded_price * ((o1.traded_quantity - trade_quantity : ℕ) : ℚ) +
              trade_price * (trade_quantity : ℚ)) / (o1.traded_quantity : ℚ) }
      else o1
    let o3 : Order :=
      if o2.remaining_quantity = 0 then o2.mark_as_filled
      else if 0 < o2.traded_quantity then { o2 with status := .PartFilled }
      else o2
    Except.ok o3

/-- `Trade.mark_as_settled`, `trade.py` lines 83-88: sets the flag and
the settlement timestamp. -/
def Trade.mark_as_settled (t : Trade) (now : ℕ) : Trade :=
  { t with is_settled := true, settlement_timestamp := some now }

/-!
## The in-memory book (`order_book.py`)

One side of the book is the Python dict `price -> list of orders`
(`self.bids` / `self.asks`) embedded as an association list in key
insertion order, together with the key set (`bid_prices` /
`ask_prices`), whose minimum / maximum the code recomputes into the
cached `best_ask` / `best_bid` whenever a level disappears
(`_update_best_ask`, `_update_best_bid`).  The cache always equals the
recomputed extreme at the points where it is read, so the embedding
computes the extreme directly from the key set.
-/

abbrev SideBook := List (ℚ × List Order)

def levelKeys (b : SideBook) : List ℚ := b.map Prod.fst

/-- `min(self.ask_prices) if self.ask_prices else None` (`order_book.py`
line 241). -/
def listMinQ : List ℚ → Option ℚ
  | [] => none
  | p :: ps =>
    match listMinQ ps with
    | none => some p
    | some m => some (min p m)

/-- `max(self.bid_prices) if self.bid_prices else None` (`order_book.py`
line 237). -/
def listMaxQ : List ℚ → Option ℚ
  | [] => none
  | p :: ps =>
    match listMaxQ ps with
    | none => some p
    | some m => some (max p m)

def bestAskOf (b : SideBook) : Option ℚ := listMinQ (levelKeys b)

def bestBidOf (b : SideBook) : Option ℚ := listMaxQ (levelKeys b)

/-- `self.asks.get(price, [])` — dict lookup. -/
def getLevel (b : SideBook) (p : ℚ) : List Order :=
  match b.find? (fun l => decide (l.1 = p)) with
  | none => []
  | some l => l.2

/-- Replace the queue stored under key `p` (the Python code mutates the
list object held by the dict in place). -/
def setLevel (b : SideBook) (p : ℚ) (os : List Order) : SideBook :=
  b.map (fun l => if l.1 = p then (l.1, os) else l)

/-- `del self.asks[price]` together with `self.ask_prices.discard(price)`. -/
def removeLevel (b : SideBook) (p : ℚ) : SideBook :=
  b.filter (fun l => decide (l.1 ≠ p))

/-- `_add_buy_order` / `_add_sell_order` (`order_book.py` lines 116-142):
create the level if absent, then append the order to its tail. -/
def addToLevel (b : SideBook) (p : ℚ) (o : Order) : SideBook :=
  if (b.find? (fun l => decide (l.1 = p))).isSome then
    b.map (fun l => if l.1 = p then (l.1, l.2 ++ [o]) else l)
  else b ++ [(p, [o])]

/-- `_match_buy_order` (`order_book.py` lines 144-183), fuel-indexed:
each pass of the `while` loop consumes one unit of fuel (the Python loop
is unbounded; every theorem below holds for every fuel value).  The
`while` guard `buy_order.remaining_quantity > 0 and self.best_ask and
buy_order.price >= self.best_ask` tests the cached best ask for
truthiness, so a zero best ask also exits the loop — embedded as
`best ≠ 0`.  The defensive `if not ask_orders: self._update_best_ask();
continue` branch recomputes the best from the unchanged key set and
loops again on the same state.  `update_trade` cannot raise here
(`trade_quantity` is the min of the two remaining quantities); if it
did, the exception would abort matching, which the embedding renders by
stopping with the trades created so far. -/
def matchBuy : ℕ → Order → SideBook → Order × SideBook × List Trade
  | 0, buy, asks => (buy, asks, [])
  | fuel + 1, buy, asks =>
    match bestAskOf asks with
    | none => (buy, asks, [])
    | some best =>
      if 0 < buy.remaining_quantity ∧ best ≠ 0 ∧ best ≤ buy.price then
        match getLevel asks best with
        | [] => matchBuy fuel buy asks
        | sell :: rest =>
          let q := min buy.remaining_quantity sell.remaining_quantity
          let tr : Trade :=
            { price := best, quantity := q, bid_order := buy.order_id,
              ask_order := sell.order_id, is_settled := false,
              settlement_timestamp := none }
          match buy.update_trade q best, sell.update_trade q best with
          | Except.ok buy2, Except.ok sell2 =>
            let asks2 :=
              if sell2.remaining_quantity = 0 then
                if rest.isEmpty then removeLevel asks best
                else setLevel asks best rest
              else setLevel asks best (sell2 :: rest)
            let r := matchBuy fuel buy2 asks2
            (r.1, r.2.1, tr :: r.2.2)
          | _, _ => (buy, asks, [tr])
      else (buy, asks, [])

/-- `_match_sell_order` (`order_book.py` lines 185-224), the mirror image
against the bids. -/
def matchSell : ℕ → Order → SideBook → Order × SideBook × List Trade
  | 0, sell, bids => (sell, bids, [])
  | fuel + 1, sell, bids =>
    match bestBidOf bids with
    | none => (sell, bids, [])
    | some best =>
      if 0 < sell.remaining_quantity ∧ best ≠ 0 ∧ sell.price ≤ best then
        match getLevel bids best with
        | [] => matchSell fuel sell bids
        | buy :: rest =>
          let q := min sell.remaining_quantity buy.remaining_quantity
          let tr : Trade :=
            { price := best, quantity := q, bid_order := buy.order_id,
              ask_order := sell.order_id, is_settled := false,
              settlement_timestamp := none }
          match sell.update_trade q best, buy.update_trade q best with
          | Except.ok sell2, Except.ok buy2 =>
            let bids2 :=
              if buy2.remaining_quantity = 0 then
                if rest.isEmpty then removeLevel bids best
                else setLevel bids best rest
              else setLevel bids best (buy2 :: rest)
            let r := matchSell fuel sell2 bids2
            (r.1, r.2.1, tr :: r.2.2)
          | _, _ => (sell, bids, [tr])
      else (sell, bids, [])

structure Book where
  bids : SideBook
  asks : SideBook
deriving DecidableEq, Repr

/-- `add_order` (`order_book.py` lines 44-77) without the
`_load_matching_orders` database warm-up (the book is taken as already
holding every loadable resting order): match, then rest the residual at
`order.price` on its own side. -/
def addOrder (fuel : ℕ) (bk : Book) (o : Order) : Book × List Trade :=
  if o.side = 1 then
    let r := matchBuy fuel o bk.asks
    ({ bids := if 0 < r.1.remaining_quantity
               then addToLevel bk.bids r.1.price r.1 else bk.bids,
       asks := r.2.1 }, r.2.2)
  else
    let r := matchSell fuel o bk.bids
    ({ bids := r.2.1,
       asks := if 0 < r.1.remaining_quantity
               then addToLevel bk.asks r.1.price r.1 else bk.asks }, r.2.2)

/-- The `order_lookup` view of the book: the first level queue holding an
order with the given id, searching bids then asks as the lookup key is
unique across the whole book. -/
def findInSide (b : SideBook) (oid : ℕ) : Option (ℚ × Order) :=
  b.findSome? (fun l =>
    (l.2.find? (fun o => decide (o.order_id = oid))).map (fun o => (l.1, o)))

/-- Remove the first order with the given id from one level queue
(`order_list.remove(order)`). -/
def eraseOrder (os : List Order) (oid : ℕ) : List Order :=
  os.eraseP (fun o => decide (o.order_id = oid))

/-- One side of the book after `cancel_order` removes the order with id
`oid` from its level queue at price `p` (`order_book.py` lines 250-268):
the emptied level is deleted. -/
def cancelSideResult (b : SideBook) (p : ℚ) (oid : ℕ) : SideBook :=
  if (eraseOrder (getLevel b p) oid).isEmpty then removeLevel b p
  else setLevel b p (eraseOrder (getLevel b p) oid)

/-- `cancel_order` (`order_book.py` lines 243-275): unknown id returns
`none` (Python `False`); otherwise the order leaves its level queue (the
emptied level is deleted), its status becomes `CANCELLED` and
`is_active` `False`, and it is saved.  `remaining_quantity` is not
touched. -/
def cancel_order (bk : Book) (oid : ℕ) : Book × Option Order :=
  match findInSide bk.bids oid with
  | some (p, o) =>
    ({ bk with bids := cancelSideResult bk.bids p oid },
     some { o with status := .Cancelled, is_active := false })
  | none =>
    match findInSide bk.asks oid with
    | some (p, o) =>
      ({ bk with asks := cancelSideResult bk.asks p oid },
       some { o with status := .Cancelled, is_active := false })
    | none => (bk, none)

/-!
## Persistence rounding (`DecimalField(decimal_places=2)`)

`Order.average_traded_price` and the price fields are Django
`DecimalField(max_digits=10, decimal_places=2)` columns; on save the
value is quantized to two decimal places with round-half-even
(`django.db.backends.utils.format_number`).  An order reloaded from the
database therefore carries the quantized average, and `update_trade`
rebuilds its running total from that quantized value.
-/

/-- Round to the nearest integer, ties to even. -/
def rhe (x : ℚ) : ℤ :=
  let f := Int.floor x
  let frac := x - (f : ℚ)
  if frac < 1 / 2 then f
  else if 1 / 2 < frac then f + 1
  else if f % 2 = 0 then f else f + 1

/-- Quantize to two decimal places, half-even. -/
def quantize2 (x : ℚ) : ℚ := ((rhe (x * 100) : ℤ) : ℚ) / 100

/-- The database image of an order after `save()`: the two decimal
columns are quantized to two places. -/
def saveOrder (o : Order) : Order :=
  { o with price := quantize2 o.price,
           average_traded_price := quantize2 o.average_traded_price }

/-- A sequence of fills applied through `Order.update_trade`, the order
being persisted and reloaded between fills (as `_load_matching_orders`
and every fresh request thread do).  Returns `none` if some fill raises. -/
def runFillsStored (o : Order) : List (ℕ × ℚ) → Option Order
  | [] => some o
  | (q, p) :: fs =>
    match o.update_trade q p with
    | Except.ok o2 => runFillsStored (saveOrder o2) fs
    | Except.error _ => none

/-- Total traded quantity of a fill list. -/
def fillsQty (fs : List (ℕ × ℚ)) : ℕ := (fs.map Prod.fst).sum

/-- Total traded value of a fill list. -/
def fillsValue (fs : List (ℕ × ℚ)) : ℚ :=
  (fs.map (fun f => (f.1 : ℚ) * f.2)).sum

/-- The exact volume-weighted average price of a fill list
(`Σ qᵢ·pᵢ / Σ qᵢ`; `0` for an empty total). -/
def exactVWAP (fs : List (ℕ × ℚ)) : ℚ := fillsValue fs / (fillsQty fs : ℚ)

/-!
## View handlers
-/

/-- The HTTP 201 body of `OrderViewSet.create` (`views.py` lines 80-89).
It has no trades field. -/
structure PlaceResponse where
  order_id : ℕ
  status : OrderStatus
  side : ℤ
  quantity : ℕ
  remaining_quantity : ℕ
  traded_quantity : ℕ
  price : ℚ
deriving DecidableEq, Repr

/-- `OrderViewSet.create` (`views.py` lines 43-93) after validation: the
order row is created with `remaining_quantity = quantity` and status
`ACTIVE` (lines 66-71), a daemon thread is started to run
`order_book.add_order` (lines 74-77, `_process_order_in_background`),
and the response is built from the freshly created order *before* the
background match runs (lines 79-89). -/
def createOrderRow (oid : ℕ) (side : ℤ) (q : ℕ) (p : ℚ) (uid t : ℕ) : Order :=
  { order_id := oid, side := side, quantity := q, price := p,
    remaining_quantity := q, traded_quantity := 0,
    average_traded_price := 0, status := .Active, is_active := true,
    created_at := t }

def placeResponseOf (o : Order) : PlaceResponse :=
  { order_id := o.order_id, status := o.status, side := o.side,
    quantity := o.quantity, remaining_quantity := o.remaining_quantity,
    traded_quantity := o.traded_quantity, price := o.price }

/-- The synchronous part of `OrderViewSet.create`: create the row,
return the response.  The matching (`addOrder`) is what the detached
background thread performs afterwards. -/
def createView (oid : ℕ) (side : ℤ) (q : ℕ) (p : ℚ) (uid t : ℕ) :
    Order × PlaceResponse :=
  let o := createOrderRow oid side q p uid t
  (o, placeResponseOf o)

/-- `OrderViewSet.update` (`views.py` lines 97-156), the modify command,
synchronous part: NOT_FOUND is handled by the caller; a non-active or
terminal order is refused (lines 117-121); otherwise the order gets the
new price and is set back to `ACTIVE` / `is_active = True`
unconditionally and saved (lines 130-134).  The cancel-and-rematch runs
afterwards in a background thread. -/
def modifyOrderView (o : Order) (new_price : ℚ) : Except String Order :=
  if o.is_active = false ∨ o.status = .Filled ∨ o.status = .Cancelled then
    Except.error "Order cannot be modified"
  else
    Except.ok { o with price := new_price, status := .Active, is_active := true }

/-- `OrderViewSet.destroy` (`views.py` lines 165-211): a non-active or
terminal order is refused; otherwise `order_book.cancel_order` runs and,
when the order is not resting in the book, the database row alone is
flipped to `CANCELLED` / inactive (lines 197-200).  Neither path touches
`remaining_quantity`. -/
def destroyFallback (o : Order) : Order :=
  { o with status := .Cancelled, is_active := false }

/-- `TradeSettlementView.post` (`trade_service/views.py` lines 109-145):
an already-settled trade is refused with a 400 body (lines 120-124);
otherwise the handler sets `trade.is_settled = True` and then assigns
`trade.settled_at` — an attribute that does not exist on the `Trade`
model (the column is `settlement_timestamp`), so the saved row keeps
`settlement_timestamp` unchanged.  The `now` argument is kept to show it
never reaches the stored trade. -/
def tradeSettlementPost (t : Trade) (now : ℕ) : Except String Trade :=
  if t.is_settled then Except.error "Trade already settled"
  else Except.ok { t with is_settled := true }

/-!
## Spec-side matcher (for the refinement claim)

`matchBuySpec` / `matchSellSpec` transcribe the algorithm exactly as the
specification words it (spec 4.2): while the incoming order has
remaining quantity, a best opposite price exists and it crosses
(equality crosses), trade `q = min(X.R, Y.R)` against the FIFO head `Y`
of the best level at the *resting* order's price `Y.price`, apply the
fill to both orders, advance past `Y` when it is exhausted; the caller
rests the residual at `X.price`.
-/

/-- One fill applied to an order, as the spec words it: decrement `R` by
`q`, add `q` to `T`, fold `(q, pe)` into the VWAP, mark `FILLED` and
inactive at `R = 0`, else `PARTIALLY_FILLED` once `T > 0`. -/
def applyFill (o : Order) (q : ℕ) (pe : ℚ) : Order :=
  let t := o.traded_quantity + q
  let r := o.remaining_quantity - q
  let vw := if 0 < t then
      (o.average_traded_price * ((t - q : ℕ) : ℚ) + pe * (q : ℚ)) / (t : ℚ)
    else o.average_traded_price
  if r = 0 then
    { o with remaining_quantity := 0, traded_quantity := t,
             average_traded_price := vw, status := .Filled, is_active := false }
  else if 0 < t then
    { o with remaining_quantity := r, traded_quantity := t,
             average_traded_price := vw, status := .PartFilled }
  else
    { o with remaining_quantity := r, traded_quantity := t,
             average_traded_price := vw }

/-- Spec 4.2 matcher for an incoming BUY, same fuel discipline as
`matchBuy`. -/
def matchBuySpec : ℕ → Order → SideBook → Order × SideBook × List Trade
  | 0, x, book => (x, book, [])
  | fuel + 1, x, book =>
    match bestAskOf book with
    | none => (x, book, [])
    | some best =>
      if 0 < x.remaining_quantity ∧ best ≤ x.price then
        match getLevel book best with
        | [] => (x, book, [])
        | y :: rest =>
          let q := min x.remaining_quantity y.remaining_quantity
          let tr : Trade :=
            { price := y.price, quantity := q, bid_order := x.order_id,
              ask_order := y.order_id, is_settled := false,
              settlement_timestamp := none }
          let x2 := applyFill x q y.price
          let y2 := applyFill y q y.price
          let book2 :=
            if y2.remaining_quantity = 0 then
              if rest.isEmpty then removeLevel book best
              else setLevel book best rest
            else setLevel book best (y2 :: rest)
          let r := matchBuySpec fuel x2 book2
          (r.1, r.2.1, tr :: r.2.2)
      else (x, book, [])

/-- Spec 4.2 matcher for an incoming SELL. -/
def matchSellSpec : ℕ → Order → SideBook → Order × SideBook × List Trade
  | 0, x, book => (x, book, [])
  | fuel + 1, x, book =>
    match bestBidOf book with
    | none => (x, book, [])
    | some best =>
      if 0 < x.remaining_quantity ∧ x.price ≤ best then
        match getLevel book best with
        | [] => (x, book, [])
        | y :: rest =>
          let q := min x.remaining_quantity y.remaining_quantity
          let tr : Trade :=
            { price := y.price, quantity := q, bid_order := y.order_id,
              ask_order := x.order_id, is_settled := false,
              settlement_timestamp := none }
          let x2 := applyFill x q y.price
          let y2 := applyFill y q y.price
          let book2 :=
            if y2.remaining_quantity = 0 then
              if rest.isEmpty then removeLevel book best
              else setLevel book best rest
            else setLevel book best (y2 :: rest)
          let r := matchSellSpec fuel x2 book2
          (r.1, r.2.1, tr :: r.2.2)
      else (x, book, [])

/-- All orders resting on one side of the book. -/
def ordersOf (b : SideBook) : List Order := (b.map Prod.snd).flatten

/-- Book-side well-formedness, maintained by `_add_buy_order` /
`_add_sell_order` and by matching: level keys are distinct, every level
queue is nonempty, every queued order is stored under its own price, and
prices are positive (API validation rejects `price ≤ 0`). -/
def wfSide (b : SideBook) : Prop :=
  (levelKeys b).Nodup ∧ ∀ l ∈ b, l.2 ≠ [] ∧ 0 < l.1 ∧ ∀ o ∈ l.2, o.price = l.1

instance (b : SideBook) : Decidable (wfSide b) := by
  unfold wfSide; infer_instance

/-!
## Order book snapshot (`OrderBookSnapshotView.get`)
-/

/-- The queryset filter of `OrderBookSnapshotView.get` (`trade_service/
views.py` lines 167-177): status in ACTIVE / PARTIALLY_FILLED and
positive remaining quantity. -/
def snapActive (o : Order) : Bool :=
  (decide (o.status = .Active) || decide (o.status = .PartFilled)) &&
    decide (0 < o.remaining_quantity)

/-- `order_by('-price', 'created_at')`. -/
def snapBuyLE (a b : Order) : Prop :=
  b.price < a.price ∨ (a.price = b.price ∧ a.created_at ≤ b.created_at)

/-- `order_by('price', 'created_at')`. -/
def snapSellLE (a b : Order) : Prop :=
  a.price < b.price ∨ (a.price = b.price ∧ a.created_at ≤ b.created_at)

instance : DecidableRel snapBuyLE := fun a b => by
  unfold snapBuyLE; infer_instance

instance : DecidableRel snapSellLE := fun a b => by
  unfold snapSellLE; infer_instance

instance : IsTotal Order snapBuyLE := by
  constructor
  intro a b
  rcases lt_trichotomy a.price b.price with h | h | h
  · exact Or.inr (Or.inl h)
  · rcases le_total a.created_at b.created_at with h2 | h2
    · exact Or.inl (Or.inr ⟨h, h2⟩)
    · exact Or.inr (Or.inr ⟨h.symm, h2⟩)
  · exact Or.inl (Or.inl h)

instance : IsTotal Order snapSellLE := by
  constructor
  intro a b
  rcases lt_trichotomy a.price b.price with h | h | h
  · exact Or.inl (Or.inl h)
  · rcases le_total a.created_at b.created_at with h2 | h2
    · exact Or.inl (Or.inr ⟨h, h2⟩)
    · exact Or.inr (Or.inr ⟨h.symm, h2⟩)
  · exact Or.inr (Or.inl h)

instance : IsTrans Order snapBuyLE := by
  constructor
  intro a b c hab hbc
  rcases hab with h1 | ⟨h1, h1t⟩ <;> rcases hbc with h2 | ⟨h2, h2t⟩
  · exact Or.inl (lt_trans h2 h1)
  · exact Or.inl (h2 ▸ h1)
  · exact Or.inl (h1 ▸ h2)
  · exact Or.inr ⟨h1.trans h2, h1t.trans h2t⟩

instance : IsTrans Order snapSellLE := by
  constructor
  intro a b c hab hbc
  rcases hab with h1 | ⟨h1, h1t⟩ <;> rcases hbc with h2 | ⟨h2, h2t⟩
  · exact Or.inl (lt_trans h1 h2)
  · exact Or.inl (h2 ▸ h1)
  · exact Or.inl (h1 ▸ h2)
  · exact Or.inr ⟨h1.trans h2, h1t.trans h2t⟩

/-- One element of the `buy_orders` / `sell_orders` arrays of the
snapshot body (`trade_service/views.py` lines 190-213): one *individual
order*, whose `quantity` field is that order's own
`remaining_quantity`. -/
structure SnapEntry where
  order_id : ℕ
  price : ℚ
  quantity : ℕ
  total_quantity : ℕ
  traded_quantity : ℕ
  status : OrderStatus
deriving DecidableEq, Repr

def snapEntryOf (o : Order) : SnapEntry :=
  { order_id := o.order_id, price := o.price,
    quantity := o.remaining_quantity, total_quantity := o.quantity,
    traded_quantity := o.traded_quantity, status := o.status }

/-- The first `depth` buy orders: filter, order by `-price, created_at`,
slice `[:depth]`. -/
def snapshotBuyOrders (db : List Order) (depth : ℕ) : List Order :=
  (((db.filter (fun o => decide (o.side = 1) && snapActive o)).insertionSort
      snapBuyLE).take depth)

def snapshotSellOrders (db : List Order) (depth : ℕ) : List Order :=
  (((db.filter (fun o => decide (o.side = -1) && snapActive o)).insertionSort
      snapSellLE).take depth)

/-- `OrderBookSnapshotView.get` (`trade_service/views.py` lines
155-216): out-of-range depth is a 400, otherwise the body lists the
first `depth` individual orders per side. -/
def orderBookSnapshotView (db : List Order) (depth : ℕ) :
    Except String (List SnapEntry × List SnapEntry) :=
  if depth < 1 ∨ 20 < depth then
    Except.error "Depth must be between 1 and 20"
  else
    Except.ok ((snapshotBuyOrders db depth).map snapEntryOf,
               (snapshotSellOrders db depth).map snapEntryOf)

/-- The aggregation the claim asserts: total resting quantity over all
active persisted orders of one side at one price. -/
def claimLevelSum (db : List Order) (side : ℤ) (p : ℚ) : ℕ :=
  ((db.filter (fun o =>
      decide (o.side = side) && o.is_active && decide (o.price = p))).map
    Order.remaining_quantity).sum

/-!
## Basic lemmas about `update_trade` and `applyFill`
-/

lemma update_trade_eq_applyFill (o : Order) (q : ℕ) (p : ℚ)
    (h : q ≤ o.remaining_quantity) :
    o.update_trade q p = Except.ok (applyFill o q p) := by
  have hg : ¬ (q > o.remaining_quantity) := by omega
  simp only [Order.update_trade, applyFill, Order.mark_as_filled, hg, if_false,
    gt_iff_lt, not_lt]
  split_ifs <;> simp_all

lemma update_trade_ok_le {o : Order} {q : ℕ} {p : ℚ} {o' : Order}
    (h : o.update_trade q p = Except.ok o') : q ≤ o.remaining_quantity := by
  by_cases hg : q > o.remaining_quantity
  · simp [Order.update_trade, hg] at h
  · omega

lemma update_trade_ok {o : Order} {q : ℕ} {p : ℚ} {o' : Order}
    (h : o.update_trade q p = Except.ok o') : o' = applyFill o q p := by
  have hle := update_trade_ok_le h
  rw [update_trade_eq_applyFill o q p hle] at h
  exact (Except.ok.inj h).symm

lemma applyFill_quantity (o : Order) (q : ℕ) (p : ℚ) :
    (applyFill o q p).quantity = o.quantity := by
  simp only [applyFill]; split_ifs <;> rfl

lemma applyFill_remaining (o : Order) (q : ℕ) (p : ℚ) :
    (applyFill o q p).remaining_quantity = o.remaining_quantity - q := by
  simp only [applyFill]
  split_ifs with h1 h2 <;> simp_all

lemma applyFill_traded (o : Order) (q : ℕ) (p : ℚ) :
    (applyFill o q p).traded_quantity = o.traded_quantity + q := by
  simp only [applyFill]; split_ifs <;> rfl

lemma applyFill_price (o : Order) (q : ℕ) (p : ℚ) :
    (applyFill o q p).price = o.price := by
  simp only [applyFill]; split_ifs <;> rfl

lemma applyFill_id (o : Order) (q : ℕ) (p : ℚ) :
    (applyFill o q p).order_id = o.order_id := by
  simp only [applyFill]; split_ifs <;> rfl

lemma applyFill_created (o : Order) (q : ℕ) (p : ℚ) :
    (applyFill o q p).created_at = o.created_at := by
  simp only [applyFill]; split_ifs <;> rfl

lemma applyFill_side (o : Order) (q : ℕ) (p : ℚ) :
    (applyFill o q p).side = o.side := by
  simp only [applyFill]; split_ifs <;> rfl

/-!
## Demonstration inputs used by witnesses and counterexamples
-/

/-- A fresh ACTIVE order, as `OrderViewSet.create` persists it. -/
def demoOrder10 : Order :=
  { order_id := 10, side := 1, quantity := 5, price := 100,
    remaining_quantity := 5, traded_quantity := 0, average_traded_price := 0,
    status := .Active, is_active := true, created_at := 0 }

def demoAsk4 : Order :=
  { order_id := 21, side := -1, quantity := 5, price := 100,
    remaining_quantity := 5, traded_quantity := 0, average_traded_price := 0,
    status := .Active, is_active := true, created_at := 0 }

def demoBook4 : Book := { bids := [], asks := [(100, [demoAsk4])] }

def demoBid5 : Order :=
  { order_id := 7, side := 1, quantity := 5, price := 100,
    remaining_quantity := 5, traded_quantity := 0, average_traded_price := 0,
    status := .Active, is_active := true, created_at := 0 }

def demoBook5 : Book := { bids := [(100, [demoBid5])], asks := [] }

def demoBuy6a : Order :=
  { order_id := 61, side := 1, quantity := 3, price := 100,
    remaining_quantity := 3, traded_quantity := 0, average_traded_price := 0,
    status := .Active, is_active := true, created_at := 0 }

def demoBuy6b : Order :=
  { order_id := 62, side := 1, quantity := 4, price := 100,
    remaining_quantity := 4, traded_quantity := 0, average_traded_price := 0,
    status := .Active, is_active := true, created_at := 1 }

def demoDb6 : List Order := [demoBuy6a, demoBuy6b]

def demoOrder7 : Order :=
  { order_id := 70, side := 1, quantity := 5, price := 10,
    remaining_quantity := 5, traded_quantity := 0, average_traded_price := 0,
    status := .Active, is_active := true, created_at := 0 }

/-- Three fills: 2 at 10.01, then 1 at 10.00, then 2 at 10.00. -/
def demoFills7 : List (ℕ × ℚ) := [(2, 1001 / 100), (1, 10), (2, 10)]

def demoPart8 : Order :=
  { order_id := 80, side := 1, quantity := 2, price := 100,
    remaining_quantity := 1, traded_quantity := 1, average_traded_price := 100,
    status := .PartFilled, is_active := true, created_at := 0 }

/-- What `OrderViewSet.update` commits for `demoPart8` at new price 101
(`views.py` lines 130-134). -/
def demoPart8Mod : Order :=
  { demoPart8 with price := 101, status := .Active, is_active := true }

def demoTrade9 : Trade :=
  { price := 100, quantity := 5, bid_order := 1, ask_order := 2,
    is_settled := false, settlement_timestamp := none }

/-!
## Claim theorems
-/

/-- C10: `update_trade` called with a trade quantity strictly greater
than the order's remaining quantity raises `ValueError` ("Trade quantity
exceeds remaining quantity") straight from the guard, before any field
assignment, so no order state is produced and the order is left exactly
as it was. -/
theorem C10_update_trade_guard (o : Order) (q : ℕ) (p : ℚ)
    (h : o.remaining_quantity < q) :
    o.update_trade q p = Except.error "Trade quantity exceeds remaining quantity" := by
  simp [Order.update_trade, h]

/-- Witness for C10 at a concrete order with remaining quantity 5 and a
fill of 6. -/
theorem C10_update_trade_guard_witness :
    demoOrder10.update_trade 6 10 =
      Except.error "Trade quantity exceeds remaining quantity" :=
  C10_update_trade_guard demoOrder10 6 10 (by decide)

/-- C9 (code bug): settling an unsettled trade flips `is_settled` but
leaves `settlement_timestamp` unchanged (`None`), because the handler
assigns the nonexistent attribute `settled_at` instead of the model
column `settlement_timestamp` that `Trade.mark_as_settled` would set;
settling an already-settled trade is refused with the 400 body and the
trade is unchanged. -/
theorem C9_settlement_divergence :
    tradeSettlementPost demoTrade9 5 =
      Except.ok { demoTrade9 with is_settled := true } ∧
    ({ demoTrade9 with is_settled := true } : Trade).settlement_timestamp = none ∧
    (demoTrade9.mark_as_settled 5).settlement_timestamp = some 5 ∧
    tradeSettlementPost (demoTrade9.mark_as_settled 5) 6 =
      Except.error "Trade already settled" := by
  refine ⟨rfl, rfl, rfl, rfl⟩

/-- C4 (amended): `OrderViewSet.create` builds its 201 response from the
freshly persisted order before the background matching thread runs: the
response always reports status ACTIVE, `remaining_quantity = quantity`,
`traded_quantity = 0`, and carries no trade list, whatever the book
holds. -/
theorem C4_place_response_is_prematch (oid : ℕ) (side : ℤ) (q : ℕ) (p : ℚ)
    (uid t : ℕ) :
    (createView oid side q p uid t).2 =
      { order_id := oid, status := .Active, side := side, quantity := q,
        remaining_quantity := q, traded_quantity := 0, price := p } := rfl

/-- C4 counterexample: a buy that fully crosses a resting ask.  The
matcher (run by the detached background thread) ends with the order
FILLED, yet the response the view already returned says ACTIVE — the
response does not carry the post-match result the claim asserts. -/
theorem C4_counterexample :
    (createView 22 1 5 100 0 1).2.status = OrderStatus.Active ∧
    (matchBuy 2 (createView 22 1 5 100 0 1).1 demoBook4.asks).1.status =
      OrderStatus.Filled ∧
    (createView 22 1 5 100 0 1).2.status ≠
      (matchBuy 2 (createView 22 1 5 100 0 1).1 demoBook4.asks).1.status := by
  refine ⟨rfl, by decide, by decide⟩

/-- C5 counterexample: cancelling an active resting order with remaining
quantity 5 leaves `remaining_quantity = 5`; the claim's `remaining = 0`
conjunct fails (`cancel_order` never touches the quantity fields). -/
theorem C5_counterexample :
    ((cancel_order demoBook5 7).2.map Order.remaining_quantity) = some 5 ∧
    (5 : ℕ) ≠ 0 := by
  refine ⟨by decide, by decide⟩

/-- C6 counterexample: two active buys at price 100.00 with remaining 3
and 4.  At depth 1 the snapshot emits one *order* entry with quantity 3,
not the aggregated level total 7; at depth 2 it emits two entries at the
same price, which a level-aggregated snapshot never would. -/
theorem C6_counterexample :
    (orderBookSnapshotView demoDb6 1).toOption = some ([snapEntryOf demoBuy6a], []) ∧
    (snapEntryOf demoBuy6a).quantity = 3 ∧
    claimLevelSum demoDb6 1 100 = 7 ∧ (3 : ℕ) ≠ 7 ∧
    (orderBookSnapshotView demoDb6 2).toOption.map
        (fun s => s.1.map SnapEntry.price) = some [100, 100] := by
  refine ⟨by decide, rfl, by decide, by decide, by decide⟩

/-- C8 counterexample: modifying the price of a partially filled order
(Q = 2, T = 1) commits it with status ACTIVE and `traded_quantity = 1`,
so `S = ACTIVE ⇔ T = 0 ∧ A` and `S = PARTIALLY_FILLED ⇔ 0 < T < Q` both
fail at the commit of `OrderViewSet.update`. -/
theorem C8_counterexample :
    modifyOrderView demoPart8 101 = Except.ok demoPart8Mod ∧
    ¬ (demoPart8Mod.status = .Active ↔
        demoPart8Mod.traded_quantity = 0 ∧ demoPart8Mod.is_active = true) ∧
    ¬ (demoPart8Mod.status = .PartFilled ↔
        0 < demoPart8Mod.traded_quantity ∧
        demoPart8Mod.traded_quantity < demoPart8Mod.quantity) := by
  refine ⟨rfl, by decide, by decide⟩

/-- C7 counterexample: fills 2 @ 10.01, 1 @ 10.00, 2 @ 10.00 through
`update_trade` with the order persisted (2-decimal half-even
quantization) between fills.  The stored average ends at 10.01, while
the exact quotient is 50.02 / 5 = 10.004, which itself rounds to 10.00:
the intermediate rounding has drifted the stored value. -/
theorem C7_counterexample :
    (runFillsStored demoOrder7 demoFills7).map Order.average_traded_price =
      some (1001 / 100) ∧
    exactVWAP demoFills7 = 2501 / 250 ∧
    (1001 / 100 : ℚ) ≠ 2501 / 250 ∧
    quantize2 (exactVWAP demoFills7) = 10 ∧ (10 : ℚ) ≠ 1001 / 100 := by
  have hex : exactVWAP demoFills7 = 2501 / 250 := by
    norm_num [exactVWAP, demoFills7, fillsValue, fillsQty]
  refine ⟨?_, hex, by norm_num, ?_, by norm_num⟩
  · norm_num [runFillsStored, demoOrder7, demoFills7, Order.update_trade,
      Order.mark_as_filled, saveOrder, quantize2, rhe]
  · rw [hex]
    norm_num [quantize2, rhe]

/-!
## Book lemmas
-/

lemma listMinQ_mem : ∀ {ps : List ℚ} {m : ℚ}, listMinQ ps = some m → m ∈ ps
  | [], _, h => by simp [listMinQ] at h
  | p :: t, m, h => by
    rw [listMinQ] at h
    cases ht : listMinQ t with
    | none => rw [ht] at h; simp only [Option.some.injEq] at h; simp [← h]
    | some m2 =>
      rw [ht] at h
      simp only [Option.some.injEq] at h
      subst h
      rcases min_cases p m2 with ⟨he, -⟩ | ⟨he, -⟩
      · simp [he]
      · rw [he]; exact List.mem_cons_of_mem _ (listMinQ_mem ht)

lemma listMaxQ_mem : ∀ {ps : List ℚ} {m : ℚ}, listMaxQ ps = some m → m ∈ ps
  | [], _, h => by simp [listMaxQ] at h
  | p :: t, m, h => by
    rw [listMaxQ] at h
    cases ht : listMaxQ t with
    | none => rw [ht] at h; simp only [Option.some.injEq] at h; simp [← h]
    | some m2 =>
      rw [ht] at h
      simp only [Option.some.injEq] at h
      subst h
      rcases max_cases p m2 with ⟨he, -⟩ | ⟨he, -⟩
      · simp [he]
      · rw [he]; exact List.mem_cons_of_mem _ (listMaxQ_mem ht)

lemma bestAskOf_mem {b : SideBook} {m : ℚ} (h : bestAskOf b = some m) :
    ∃ os, (m, os) ∈ b := by
  have hm := listMinQ_mem h
  simp only [levelKeys, List.mem_map] at hm
  obtain ⟨l, hl, he⟩ := hm
  refine ⟨l.2, ?_⟩
  rw [← he]
  exact hl

lemma bestBidOf_mem {b : SideBook} {m : ℚ} (h : bestBidOf b = some m) :
    ∃ os, (m, os) ∈ b := by
  have hm := listMaxQ_mem h
  simp only [levelKeys, List.mem_map] at hm
  obtain ⟨l, hl, he⟩ := hm
  refine ⟨l.2, ?_⟩
  rw [← he]
  exact hl

lemma getLevel_of_mem {b : SideBook} {p : ℚ} {os : List Order}
    (hnd : (levelKeys b).Nodup) (hmem : (p, os) ∈ b) : getLevel b p = os := by
  induction b with
  | nil => simp at hmem
  | cons l t ih =>
    simp only [levelKeys, List.map_cons, List.nodup_cons] at hnd
    rcases List.mem_cons.mp hmem with he | ht
    · rw [← he]; simp [getLevel]
    · have hne : l.1 ≠ p := by
        intro hcontra
        exact hnd.1 (hcontra ▸ (by simpa [levelKeys] using List.mem_map_of_mem Prod.fst ht))
      rw [getLevel, List.find?_cons_of_neg _ (by simp [hne])]
      exact ih hnd.2 ht

lemma mem_ordersOf_of_mem_level {b : SideBook} {l : ℚ × List Order} {o : Order}
    (hl : l ∈ b) (ho : o ∈ l.2) : o ∈ ordersOf b := by
  unfold ordersOf
  rw [List.mem_flatten]
  exact ⟨l.2, List.mem_map_of_mem Prod.snd hl, ho⟩

lemma levelKeys_setLevel (b : SideBook) (p : ℚ) (os : List Order) :
    levelKeys (setLevel b p os) = levelKeys b := by
  unfold levelKeys setLevel
  rw [List.map_map]
  apply List.map_congr_left
  intro l _
  by_cases h : l.1 = p <;> simp [h]

lemma mem_setLevel {b : SideBook} {p : ℚ} {os : List Order} {l : ℚ × List Order}
    (h : l ∈ setLevel b p os) : (l ∈ b ∧ l.1 ≠ p) ∨ (l.1 = p ∧ l.2 = os) := by
  unfold setLevel at h
  rw [List.mem_map] at h
  obtain ⟨l0, hl0, he⟩ := h
  by_cases hc : l0.1 = p
  · rw [if_pos hc] at he
    right
    constructor
    · rw [← he]; exact hc
    · rw [← he]
  · rw [if_neg hc] at he
    exact Or.inl ⟨he ▸ hl0, he ▸ hc⟩

lemma mem_removeLevel {b : SideBook} {p : ℚ} {l : ℚ × List Order}
    (h : l ∈ removeLevel b p) : l ∈ b ∧ l.1 ≠ p := by
  unfold removeLevel at h
  rw [List.mem_filter] at h
  exact ⟨h.1, by simpa using h.2⟩

lemma wfSide_setLevel {b : SideBook} {p : ℚ} {os : List Order}
    (hwf : wfSide b) (hos : os ≠ []) (hp : 0 < p)
    (hpr : ∀ o ∈ os, o.price = p) : wfSide (setLevel b p os) := by
  constructor
  · rw [levelKeys_setLevel]; exact hwf.1
  · intro l hl
    rcases mem_setLevel hl with ⟨hmem, -⟩ | ⟨hk, hv⟩
    · exact hwf.2 l hmem
    · exact ⟨by rw [hv]; exact hos, by rw [hk]; exact hp,
        by rw [hv, hk]; exact hpr⟩

lemma wfSide_removeLevel {b : SideBook} {p : ℚ} (hwf : wfSide b) :
    wfSide (removeLevel b p) := by
  constructor
  · exact List.Nodup.sublist (List.Sublist.map Prod.fst (List.filter_sublist b)) hwf.1
  · intro l hl
    exact hwf.2 l (mem_removeLevel hl).1

lemma mem_ordersOf_setLevel {b : SideBook} {p : ℚ} {os : List Order} {o : Order}
    (h : o ∈ ordersOf (setLevel b p os)) : o ∈ ordersOf b ∨ o ∈ os := by
  unfold ordersOf at h
  rw [List.mem_flatten] at h
  obtain ⟨v, hv, ho⟩ := h
  rw [List.mem_map] at hv
  obtain ⟨l, hl, he⟩ := hv
  rcases mem_setLevel hl with ⟨hmem, -⟩ | ⟨-, hv2⟩
  · exact Or.inl (mem_ordersOf_of_mem_level hmem (he ▸ ho))
  · right; rw [← hv2, he]; exact ho

lemma mem_ordersOf_removeLevel {b : SideBook} {p : ℚ} {o : Order}
    (h : o ∈ ordersOf (removeLevel b p)) : o ∈ ordersOf b := by
  unfold ordersOf at h
  rw [List.mem_flatten] at h
  obtain ⟨v, hv, ho⟩ := h
  rw [List.mem_map] at hv
  obtain ⟨l, hl, he⟩ := hv
  exact mem_ordersOf_of_mem_level (mem_removeLevel hl).1 (he ▸ ho)

lemma wfSide_step {asks : SideBook} {best : ℚ} {sell : Order} {rest : List Order}
    (hwf : wfSide asks) (hmem : (best, sell :: rest) ∈ asks) (sell2 : Order)
    (hp2 : sell2.price = best) :
    wfSide (if sell2.remaining_quantity = 0 then
        (if rest.isEmpty then removeLevel asks best else setLevel asks best rest)
      else setLevel asks best (sell2 :: rest)) := by
  obtain ⟨-, hpos, hpr⟩ := hwf.2 (best, sell :: rest) hmem
  split_ifs with hz he
  · exact wfSide_removeLevel hwf
  · refine wfSide_setLevel hwf ?_ hpos ?_
    · intro hcontra; rw [hcontra] at he; simp at he
    · intro o ho; exact hpr o (List.mem_cons_of_mem _ ho)
  · refine wfSide_setLevel hwf (by simp) hpos ?_
    intro o ho
    rcases List.mem_cons.mp ho with he2 | ho2
    · rw [he2]; exact hp2
    · exact hpr o (List.mem_cons_of_mem _ ho2)

lemma matchBuy_eq_spec (fuel : ℕ) : ∀ (x : Order) (asks : SideBook),
    wfSide asks → matchBuy fuel x asks = matchBuySpec fuel x asks := by
  induction fuel with
  | zero => intro x asks _; rfl
  | succ n ih =>
    intro x asks hwf
    cases hb : bestAskOf asks with
    | none => simp only [matchBuy, matchBuySpec, hb]
    | some best =>
      obtain ⟨os, hmem⟩ := bestAskOf_mem hb
      obtain ⟨hne, hpos, hpr⟩ := hwf.2 (best, os) hmem
      have hlv : getLevel asks best = os := getLevel_of_mem hwf.1 hmem
      by_cases hc : 0 < x.remaining_quantity ∧ best ≤ x.price
      · have hc2 : 0 < x.remaining_quantity ∧ best ≠ 0 ∧ best ≤ x.price :=
          ⟨hc.1, ne_of_gt hpos, hc.2⟩
        cases os with
        | nil => exact absurd rfl hne
        | cons sell rest =>
          have hsp : sell.price = best := hpr sell (List.mem_cons_self _ _)
          have h1 : min x.remaining_quantity sell.remaining_quantity ≤
              x.remaining_quantity := Nat.min_le_left _ _
          have h2 : min x.remaining_quantity sell.remaining_quantity ≤
              sell.remaining_quantity := Nat.min_le_right _ _
          simp only [matchBuy, matchBuySpec, hb, if_pos hc, if_pos hc2, hlv,
            update_trade_eq_applyFill _ _ _ h1, update_trade_eq_applyFill _ _ _ h2,
            hsp]
          rw [ih _ _ (wfSide_step hwf hmem
            (applyFill sell (min x.remaining_quantity sell.remaining_quantity) best)
            (by rw [applyFill_price]; exact hsp))]
      · have hc2 : ¬ (0 < x.remaining_quantity ∧ best ≠ 0 ∧ best ≤ x.price) := by
          intro h; exact hc ⟨h.1, h.2.2⟩
        simp only [matchBuy, matchBuySpec, hb, if_neg hc, if_neg hc2]

lemma matchSell_eq_spec (fuel : ℕ) : ∀ (x : Order) (bids : SideBook),
    wfSide bids → matchSell fuel x bids = matchSellSpec fuel x bids := by
  induction fuel with
  | zero => intro x bids _; rfl
  | succ n ih =>
    intro x bids hwf
    cases hb : bestBidOf bids with
    | none => simp only [matchSell, matchSellSpec, hb]
    | some best =>
      obtain ⟨os, hmem⟩ := bestBidOf_mem hb
      obtain ⟨hne, hpos, hpr⟩ := hwf.2 (best, os) hmem
      have hlv : getLevel bids best = os := getLevel_of_mem hwf.1 hmem
      by_cases hc : 0 < x.remaining_quantity ∧ x.price ≤ best
      · have hc2 : 0 < x.remaining_quantity ∧ best ≠ 0 ∧ x.price ≤ best :=
          ⟨hc.1, ne_of_gt hpos, hc.2⟩
        cases os with
        | nil => exact absurd rfl hne
        | cons buy rest =>
          have hsp : buy.price = best := hpr buy (List.mem_cons_self _ _)
          have h1 : min x.remaining_quantity buy.remaining_quantity ≤
              x.remaining_quantity := Nat.min_le_left _ _
          have h2 : min x.remaining_quantity buy.remaining_quantity ≤
              buy.remaining_quantity := Nat.min_le_right _ _
          simp only [matchSell, matchSellSpec, hb, if_pos hc, if_pos hc2, hlv,
            update_trade_eq_applyFill _ _ _ h1, update_trade_eq_applyFill _ _ _ h2,
            hsp]
          rw [ih _ _ (wfSide_step hwf hmem
            (applyFill buy (min x.remaining_quantity buy.remaining_quantity) best)
            (by rw [applyFill_price]; exact hsp))]
      · have hc2 : ¬ (0 < x.remaining_quantity ∧ best ≠ 0 ∧ x.price ≤ best) := by
          intro h; exact hc ⟨h.1, h.2.2⟩
        simp only [matchSell, matchSellSpec, hb, if_neg hc, if_neg hc2]

lemma matchBuySpec_price (fuel : ℕ) : ∀ (x : Order) (b : SideBook),
    (matchBuySpec fuel x b).1.price = x.price := by
  induction fuel with
  | zero => intro x b; rfl
  | succ n ih =>
    intro x b
    cases hb : bestAskOf b with
    | none => simp only [matchBuySpec, hb]
    | some best =>
      by_cases hc : 0 < x.remaining_quantity ∧ best ≤ x.price
      · cases hl : getLevel b best with
        | nil => simp only [matchBuySpec, hb, if_pos hc, hl]
        | cons y rest =>
          simp only [matchBuySpec, hb, if_pos hc, hl]
          rw [ih, applyFill_price]
      · simp only [matchBuySpec, hb, if_neg hc]

lemma matchSellSpec_price (fuel : ℕ) : ∀ (x : Order) (b : SideBook),
    (matchSellSpec fuel x b).1.price = x.price := by
  induction fuel with
  | zero => intro x b; rfl
  | succ n ih =>
    intro x b
    cases hb : bestBidOf b with
    | none => simp only [matchSellSpec, hb]
    | some best =>
      by_cases hc : 0 < x.remaining_quantity ∧ x.price ≤ best
      · cases hl : getLevel b best with
        | nil => simp only [matchSellSpec, hb, if_pos hc, hl]
        | cons y rest =>
          simp only [matchSellSpec, hb, if_pos hc, hl]
          rw [ih, applyFill_price]
      · simp only [matchSellSpec, hb, if_neg hc]

lemma ordersOf_step_lift {asks : SideBook} {best : ℚ} {sell : Order}
    {rest : List Order} (hmem : (best, sell :: rest) ∈ asks) (sell2 : Order)
    (hid : sell2.order_id = sell.order_id) (hp : sell2.price = sell.price) :
    ∀ y ∈ ordersOf (if sell2.remaining_quantity = 0 then
        (if rest.isEmpty then removeLevel asks best else setLevel asks best rest)
      else setLevel asks best (sell2 :: rest)),
      ∃ a ∈ ordersOf asks, a.order_id = y.order_id ∧ a.price = y.price := by
  intro y hy
  split_ifs at hy with hz he
  · exact ⟨y, mem_ordersOf_removeLevel hy, rfl, rfl⟩
  · rcases mem_ordersOf_setLevel hy with h | h
    · exact ⟨y, h, rfl, rfl⟩
    · exact ⟨y, mem_ordersOf_of_mem_level hmem (List.mem_cons_of_mem _ h), rfl, rfl⟩
  · rcases mem_ordersOf_setLevel hy with h | h
    · exact ⟨y, h, rfl, rfl⟩
    · rcases List.mem_cons.mp h with he2 | h2
      · exact ⟨sell, mem_ordersOf_of_mem_level hmem (List.mem_cons_self _ _),
          by rw [he2, hid], by rw [he2, hp]⟩
      · exact ⟨y, mem_ordersOf_of_mem_level hmem (List.mem_cons_of_mem _ h2),
          rfl, rfl⟩

lemma matchBuySpec_trades (fuel : ℕ) : ∀ (x : Order) (book : SideBook),
    wfSide book → ∀ tr ∈ (matchBuySpec fuel x book).2.2,
      ∃ a ∈ ordersOf book, a.order_id = tr.ask_order ∧ tr.price = a.price := by
  induction fuel with
  | zero => intro x book _ tr htr; simp [matchBuySpec] at htr
  | succ n ih =>
    intro x book hwf tr htr
    cases hb : bestAskOf book with
    | none => rw [matchBuySpec] at htr; simp [hb] at htr
    | some best =>
      obtain ⟨os, hmem⟩ := bestAskOf_mem hb
      obtain ⟨hne, hpos, hpr⟩ := hwf.2 (best, os) hmem
      have hlv : getLevel book best = os := getLevel_of_mem hwf.1 hmem
      by_cases hc : 0 < x.remaining_quantity ∧ best ≤ x.price
      · cases os with
        | nil => exact absurd rfl hne
        | cons sell rest =>
          simp only [matchBuySpec, hb, if_pos hc, hlv] at htr
          rcases List.mem_cons.mp htr with he | hrec
          · refine ⟨sell, mem_ordersOf_of_mem_level hmem (List.mem_cons_self _ _),
              ?_, ?_⟩ <;> rw [he]
          · obtain ⟨a2, ha2, hid2, hp2⟩ := ih _ _
              (wfSide_step hwf hmem _ (by
                rw [applyFill_price]
                exact hpr sell (List.mem_cons_self _ _))) tr hrec
            obtain ⟨a, ha, hid, hp⟩ := ordersOf_step_lift hmem
              (applyFill sell (min x.remaining_quantity sell.remaining_quantity)
                sell.price) (applyFill_id _ _ _) (applyFill_price _ _ _) a2 ha2
            exact ⟨a, ha, by rw [hid, hid2], by rw [hp2, ← hp]⟩
      · rw [matchBuySpec] at htr; simp [hb, if_neg hc] at htr

lemma matchSellSpec_trades (fuel : ℕ) : ∀ (x : Order) (book : SideBook),
    wfSide book → ∀ tr ∈ (matchSellSpec fuel x book).2.2,
      ∃ a ∈ ordersOf book, a.order_id = tr.bid_order ∧ tr.price = a.price := by
  induction fuel with
  | zero => intro x book _ tr htr; simp [matchSellSpec] at htr
  | succ n ih =>
    intro x book hwf tr htr
    cases hb : bestBidOf book with
    | none => rw [matchSellSpec] at htr; simp [hb] at htr
    | some best =>
      obtain ⟨os, hmem⟩ := bestBidOf_mem hb
      obtain ⟨hne, hpos, hpr⟩ := hwf.2 (best, os) hmem
      have hlv : getLevel book best = os := getLevel_of_mem hwf.1 hmem
      by_cases hc : 0 < x.remaining_quantity ∧ x.price ≤ best
      · cases os with
        | nil => exact absurd rfl hne
        | cons buy rest =>
          simp only [matchSellSpec, hb, if_pos hc, hlv] at htr
          rcases List.mem_cons.mp htr with he | hrec
          · refine ⟨buy, mem_ordersOf_of_mem_level hmem (List.mem_cons_self _ _),
              ?_, ?_⟩ <;> rw [he]
          · obtain ⟨a2, ha2, hid2, hp2⟩ := ih _ _
              (wfSide_step hwf hmem _ (by
                rw [applyFill_price]
                exact hpr buy (List.mem_cons_self _ _))) tr hrec
            obtain ⟨a, ha, hid, hp⟩ := ordersOf_step_lift hmem
              (applyFill buy (min x.remaining_quantity buy.remaining_quantity)
                buy.price) (applyFill_id _ _ _) (applyFill_price _ _ _) a2 ha2
            exact ⟨a, ha, by rw [hid, hid2], by rw [hp2, ← hp]⟩
      · rw [matchSellSpec] at htr; simp [hb, if_neg hc] at htr

/-- C2: `add_order` refines the spec 4.2 matcher: for a buy it equals
`matchBuySpec` followed by resting the residual (if any) at `X.price`;
for a sell it is the mirror image with `matchSellSpec`.  The equality
holds for every fuel bound on the loop, over any well-formed book. -/
theorem C2_matching_refines_spec (fuel : ℕ) (bk : Book) (x : Order)
    (hb : wfSide bk.bids) (ha : wfSide bk.asks) :
    (x.side = 1 → addOrder fuel bk x =
      (let r := matchBuySpec fuel x bk.asks
       ({ bids := if 0 < r.1.remaining_quantity
                  then addToLevel bk.bids x.price r.1 else bk.bids,
          asks := r.2.1 }, r.2.2))) ∧
    (x.side ≠ 1 → addOrder fuel bk x =
      (let r := matchSellSpec fuel x bk.bids
       ({ bids := r.2.1,
          asks := if 0 < r.1.remaining_quantity
                  then addToLevel bk.asks x.price r.1 else bk.asks }, r.2.2))) := by
  constructor
  · intro hside
    simp only [addOrder, if_pos hside, matchBuy_eq_spec fuel x bk.asks ha,
      matchBuySpec_price]
  · intro hside
    simp only [addOrder, if_neg hside, matchSell_eq_spec fuel x bk.bids hb,
      matchSellSpec_price]

/-- C1: every trade emitted by matching prices at the resting order: for
an incoming buy each trade's `ask_order` names an order resting on the
ask side of the book whose price is the trade price, and symmetrically
for an incoming sell.  (Matching never changes an order's price, so the
resting order's price in the pre-match book is its price at match
time.) -/
theorem C1_trade_price_resting (fuel : ℕ) (bk : Book) (x : Order)
    (hb : wfSide bk.bids) (ha : wfSide bk.asks) :
    ∀ tr ∈ (addOrder fuel bk x).2,
      (x.side = 1 →
        ∃ a ∈ ordersOf bk.asks, a.order_id = tr.ask_order ∧ tr.price = a.price) ∧
      (x.side ≠ 1 →
        ∃ a ∈ ordersOf bk.bids, a.order_id = tr.bid_order ∧ tr.price = a.price) := by
  intro tr htr
  constructor
  · intro hside
    rw [addOrder, if_pos hside] at htr
    rw [matchBuy_eq_spec fuel x bk.asks ha] at htr
    exact matchBuySpec_trades fuel x bk.asks ha tr htr
  · intro hside
    rw [addOrder, if_neg hside] at htr
    rw [matchSell_eq_spec fuel x bk.bids hb] at htr
    exact matchSellSpec_trades fuel x bk.bids hb tr htr

/-- An incoming buy that crosses `demoBook4`. -/
def demoBuy30 : Order :=
  { order_id := 30, side := 1, quantity := 3, price := 100,
    remaining_quantity := 3, traded_quantity := 0, average_traded_price := 0,
    status := .Active, is_active := true, created_at := 1 }

/-- Witness for C2 on a one-level book and a crossing buy. -/
theorem C2_matching_refines_spec_witness :
    addOrder 2 demoBook4 demoBuy30 =
      (let r := matchBuySpec 2 demoBuy30 demoBook4.asks
       ({ bids := if 0 < r.1.remaining_quantity
                  then addToLevel demoBook4.bids demoBuy30.price r.1
                  else demoBook4.bids,
          asks := r.2.1 }, r.2.2)) :=
  (C2_matching_refines_spec 2 demoBook4 demoBuy30 (by decide) (by decide)).1 rfl

/-- The one trade `addOrder 2 demoBook4 demoBuy30` emits. -/
def demoTrade30 : Trade :=
  { price := 100, quantity := 3, bid_order := 30, ask_order := 21,
    is_settled := false, settlement_timestamp := none }

/-- Witness for C1 at the concrete trade the demo match emits: it prices
at the resting ask. -/
theorem C1_trade_price_resting_witness :
    (demoBuy30.side = 1 →
      ∃ a ∈ ordersOf demoBook4.asks,
        a.order_id = demoTrade30.ask_order ∧ demoTrade30.price = a.price) ∧
    (demoBuy30.side ≠ 1 →
      ∃ a ∈ ordersOf demoBook4.bids,
        a.order_id = demoTrade30.bid_order ∧ demoTrade30.price = a.price) :=
  C1_trade_price_resting 2 demoBook4 demoBuy30 (by decide) (by decide)
    demoTrade30 (by decide)

/-- Spec 3 invariant: `Q = R + T`. -/
def qtyInvariant (o : Order) : Prop :=
  o.quantity = o.remaining_quantity + o.traded_quantity

instance (o : Order) : Decidable (qtyInvariant o) := by
  unfold qtyInvariant; infer_instance

def bookOrders (bk : Book) : List Order := ordersOf bk.bids ++ ordersOf bk.asks

/-- Uniqueness of order ids across the whole book (each id is indexed at
most once in `order_lookup`). -/
def idsUniqueBook (bk : Book) : Prop :=
  ((bookOrders bk).map Order.order_id).Nodup

instance (bk : Book) : Decidable (idsUniqueBook bk) := by
  unfold idsUniqueBook; infer_instance

lemma findInSide_level {b : SideBook} {oid : ℕ} {p : ℚ} {o : Order}
    (h : findInSide b oid = some (p, o)) :
    ∃ os, (p, os) ∈ b ∧ o ∈ os ∧ o.order_id = oid := by
  unfold findInSide at h
  rw [List.findSome?_eq_some_iff] at h
  obtain ⟨l₁, a, l₂, hb, hf, -⟩ := h
  rw [Option.map_eq_some'] at hf
  obtain ⟨o2, hfind, heq⟩ := hf
  rw [Prod.mk.injEq] at heq
  obtain ⟨hp1, ho2⟩ := heq
  subst ho2
  refine ⟨a.2, ?_, List.mem_of_find?_eq_some hfind, ?_⟩
  · rw [← hp1]
    have ha : (a.1, a.2) = a := rfl
    rw [ha, hb]
    simp
  · have hp := List.find?_some hfind
    simpa [decide_eq_true_eq] using hp

lemma findInSide_mem {b : SideBook} {oid : ℕ} {p : ℚ} {o : Order}
    (h : findInSide b oid = some (p, o)) :
    o ∈ ordersOf b ∧ o.order_id = oid := by
  obtain ⟨os, hmem, ho, hid⟩ := findInSide_level h
  exact ⟨mem_ordersOf_of_mem_level hmem ho, hid⟩

/-- C3: quantity bookkeeping.  Every committed operation preserves
`quantity = remaining_quantity + traded_quantity`: order creation by the
place handler starts with `R = Q, T = 0`; a fill through `update_trade`
moves quantity from `R` to `T`; the two live cancel paths
(`cancel_order` and the `destroy` fallback) and the modify handler
change only price/status/activity. -/
theorem C3_quantity_invariant :
    (∀ (oid : ℕ) (side : ℤ) (q : ℕ) (p : ℚ) (uid t : ℕ),
        qtyInvariant (createOrderRow oid side q p uid t)) ∧
    (∀ (o : Order) (q : ℕ) (p : ℚ) (o' : Order),
        qtyInvariant o → o.update_trade q p = Except.ok o' → qtyInvariant o') ∧
    (∀ (bk : Book) (oid : ℕ) (o' : Order),
        (∀ x ∈ bookOrders bk, qtyInvariant x) →
        (cancel_order bk oid).2 = some o' → qtyInvariant o') ∧
    (∀ (o : Order) (p : ℚ) (o' : Order),
        qtyInvariant o → modifyOrderView o p = Except.ok o' → qtyInvariant o') ∧
    (∀ (o : Order), qtyInvariant o → qtyInvariant (destroyFallback o)) := by
  refine ⟨?_, ?_, ?_, ?_, ?_⟩
  · intro oid side q p uid t
    simp [qtyInvariant, createOrderRow]
  · intro o q p o' h1 h2
    have hle := update_trade_ok_le h2
    rw [update_trade_ok h2]
    unfold qtyInvariant at h1 ⊢
    rw [applyFill_quantity, applyFill_remaining, applyFill_traded]
    omega
  · intro bk oid o' hall h2
    unfold cancel_order at h2
    split at h2
    · rename_i p o hfb
      simp only [Option.some.injEq] at h2
      rw [← h2]
      have hmem := (findInSide_mem hfb).1
      have hq := hall o (List.mem_append_left _ hmem)
      unfold qtyInvariant at hq ⊢
      exact hq
    · split at h2
      · rename_i p o hfa
        simp only [Option.some.injEq] at h2
        rw [← h2]
        have hmem := (findInSide_mem hfa).1
        have hq := hall o (List.mem_append_right _ hmem)
        unfold qtyInvariant at hq ⊢
        exact hq
      · simp at h2
  · intro o p o' h1 h2
    unfold modifyOrderView at h2
    split at h2
    · simp at h2
    · simp only [Except.ok.injEq] at h2
      rw [← h2]
      unfold qtyInvariant at h1 ⊢
      exact h1
  · intro o h1
    simpa [qtyInvariant, destroyFallback] using h1

def demoCancelled5 : Order :=
  { demoBid5 with status := .Cancelled, is_active := false }

def demoMod10 : Order :=
  { demoOrder10 with price := 101, status := .Active, is_active := true }

/-- Witness for C3: each conjunct applied to a concrete operation. -/
theorem C3_quantity_invariant_witness :
    qtyInvariant (createOrderRow 1 1 5 100 0 0) ∧
    qtyInvariant (applyFill demoOrder10 2 100) ∧
    qtyInvariant demoCancelled5 ∧
    qtyInvariant demoMod10 ∧
    qtyInvariant (destroyFallback demoOrder10) :=
  ⟨C3_quantity_invariant.1 1 1 5 100 0 0,
   C3_quantity_invariant.2.1 demoOrder10 2 100 _ (by decide)
     (update_trade_eq_applyFill demoOrder10 2 100 (by decide)),
   C3_quantity_invariant.2.2.1 demoBook5 7 demoCancelled5 (by decide) (by decide),
   C3_quantity_invariant.2.2.2.1 demoOrder10 101 demoMod10 (by decide) rfl,
   C3_quantity_invariant.2.2.2.2 demoOrder10 (by decide)⟩

lemma applyFill_status (o : Order) (q : ℕ) (p : ℚ) :
    (applyFill o q p).status =
      if o.remaining_quantity - q = 0 then OrderStatus.Filled
      else if 0 < o.traded_quantity + q then OrderStatus.PartFilled
      else o.status := by
  simp only [applyFill]; split_ifs <;> rfl

/-- C8 (amended): after a fill through `update_trade` the status
equivalences hold — `PARTIALLY_FILLED ⇔ 0 < T < Q` and `FILLED ⇔ R = 0`
— but the modify handler commits status ACTIVE unconditionally while
leaving `traded_quantity` as it was, so the ACTIVE equivalence fails
after modifying a partially filled order. -/
theorem C8_status_amended :
    (∀ (o : Order) (q : ℕ) (p : ℚ) (o' : Order),
        qtyInvariant o → 0 < q → o.update_trade q p = Except.ok o' →
        ((o'.status = .PartFilled ↔
            0 < o'.traded_quantity ∧ o'.traded_quantity < o'.quantity) ∧
         (o'.status = .Filled ↔ o'.remaining_quantity = 0))) ∧
    (∀ (o : Order) (p : ℚ) (o' : Order),
        modifyOrderView o p = Except.ok o' →
        o'.status = .Active ∧ o'.traded_quantity = o.traded_quantity ∧
        o'.is_active = true) := by
  constructor
  · intro o q p o' h1 hq h2
    have hle := update_trade_ok_le h2
    rw [update_trade_ok h2]
    unfold qtyInvariant at h1
    by_cases hr : o.remaining_quantity - q = 0 <;>
      simp [applyFill_status, applyFill_traded, applyFill_quantity,
        applyFill_remaining, hr, show 0 < o.traded_quantity + q from by omega] <;>
      omega
  · intro o p o' h2
    unfold modifyOrderView at h2
    split at h2
    · simp at h2
    · simp only [Except.ok.injEq] at h2
      rw [← h2]
      exact ⟨rfl, rfl, rfl⟩

/-- Witness for C8: the fill part at a concrete partial fill, the modify
part at a concrete active order. -/
theorem C8_status_amended_witness :
    (((applyFill demoOrder10 2 100).status = .PartFilled ↔
        0 < (applyFill demoOrder10 2 100).traded_quantity ∧
        (applyFill demoOrder10 2 100).traded_quantity <
          (applyFill demoOrder10 2 100).quantity) ∧
     ((applyFill demoOrder10 2 100).status = .Filled ↔
        (applyFill demoOrder10 2 100).remaining_quantity = 0)) ∧
    (demoMod10.status = .Active ∧
     demoMod10.traded_quantity = demoOrder10.traded_quantity ∧
     demoMod10.is_active = true) :=
  ⟨C8_status_amended.1 demoOrder10 2 100 _ (by decide) (by decide)
     (update_trade_eq_applyFill demoOrder10 2 100 (by decide)),
   C8_status_amended.2 demoOrder10 101 demoMod10 rfl⟩

lemma countP_le_one_of_nodup_map (l : List Order) (oid : ℕ)
    (h : (l.map Order.order_id).Nodup) :
    l.countP (fun y => decide (y.order_id = oid)) ≤ 1 := by
  induction l with
  | nil => simp
  | cons a t ih =>
    rw [List.map_cons, List.nodup_cons] at h
    rw [List.countP_cons]
    by_cases hk : a.order_id = oid
    · have h0 : t.countP (fun y => decide (y.order_id = oid)) = 0 := by
        rw [List.countP_eq_zero]
        intro y hy hp
        rw [decide_eq_true_eq] at hp
        exact h.1 (by rw [hk, ← hp]; exact List.mem_map_of_mem _ hy)
      simp [hk, h0]
    · simp [hk]
      exact ih h.2

lemma eraseP_no_sat (p : Order → Bool) :
    ∀ (l : List Order), l.countP p ≤ 1 → ∀ x ∈ l.eraseP p, p x = false := by
  intro l
  induction l with
  | nil => intro _ x hx; simp at hx
  | cons a t ih =>
    intro h x hx
    by_cases ha : p a = true
    · rw [List.eraseP_cons_of_pos ha] at hx
      rw [List.countP_cons, if_pos ha] at h
      have h0 := List.countP_eq_zero.mp (by omega : t.countP p = 0)
      exact Bool.eq_false_iff.mpr (h0 x hx)
    · rw [List.eraseP_cons_of_neg ha] at hx
      rcases List.mem_cons.mp hx with he | hx2
      · rw [he]; exact Bool.eq_false_iff.mpr ha
      · rw [List.countP_cons, if_neg ha] at h
        exact ih (by omega) x hx2

lemma mem_ordersOf_setLevel_strong {b : SideBook} {p : ℚ} {os : List Order}
    {o : Order} (h : o ∈ ordersOf (setLevel b p os)) :
    (∃ l ∈ b, l.1 ≠ p ∧ o ∈ l.2) ∨ o ∈ os := by
  unfold ordersOf at h
  rw [List.mem_flatten] at h
  obtain ⟨v, hv, ho⟩ := h
  rw [List.mem_map] at hv
  obtain ⟨l, hl, he⟩ := hv
  rcases mem_setLevel hl with ⟨hmem, hne⟩ | ⟨-, hv2⟩
  · exact Or.inl ⟨l, hmem, hne, he ▸ ho⟩
  · right; rw [← hv2, he]; exact ho

lemma mem_ordersOf_removeLevel_strong {b : SideBook} {p : ℚ} {o : Order}
    (h : o ∈ ordersOf (removeLevel b p)) : ∃ l ∈ b, l.1 ≠ p ∧ o ∈ l.2 := by
  unfold ordersOf at h
  rw [List.mem_flatten] at h
  obtain ⟨v, hv, ho⟩ := h
  rw [List.mem_map] at hv
  obtain ⟨l, hl, he⟩ := hv
  obtain ⟨hmem, hne⟩ := mem_removeLevel hl
  exact ⟨l, hmem, hne, he ▸ ho⟩

/-- After erasing the unique order with id `oid` from its level, no order
on that side carries id `oid` any more. -/
lemma cancel_side_clean {b : SideBook} {oid : ℕ} {p : ℚ} {os : List Order}
    {o : Order} (hnd : (levelKeys b).Nodup) (hmem : (p, os) ∈ b) (ho : o ∈ os)
    (hid : o.order_id = oid)
    (hc1 : (ordersOf b).countP (fun y => decide (y.order_id = oid)) ≤ 1) :
    ∀ x ∈ ordersOf (cancelSideResult b p oid), x.order_id ≠ oid := by
  unfold cancelSideResult
  have hlv : getLevel b p = os := getLevel_of_mem hnd hmem
  rw [hlv]
  obtain ⟨l₁, l₂, hdec⟩ := List.append_of_mem hmem
  have hORD : ordersOf b = ordersOf l₁ ++ (os ++ ordersOf l₂) := by
    rw [hdec]
    simp [ordersOf]
  have hos : 0 < os.countP (fun y => decide (y.order_id = oid)) :=
    List.countP_pos.mpr ⟨o, ho, by simp [hid]⟩
  rw [hORD, List.countP_append, List.countP_append] at hc1
  have hz1 : (ordersOf l₁).countP (fun y => decide (y.order_id = oid)) = 0 := by
    omega
  have hz2 : (ordersOf l₂).countP (fun y => decide (y.order_id = oid)) = 0 := by
    omega
  have hos1 : os.countP (fun y => decide (y.order_id = oid)) ≤ 1 := by omega
  have hother : ∀ l ∈ b, l.1 ≠ p → ∀ y ∈ l.2, y.order_id ≠ oid := by
    intro l hl hne y hy
    rw [hdec] at hl
    rcases List.mem_append.mp hl with h1 | h2
    · have hz := List.countP_eq_zero.mp hz1 y (mem_ordersOf_of_mem_level h1 hy)
      simpa using hz
    · rcases List.mem_cons.mp h2 with he | h3
      · exact absurd (by rw [he]) hne
      · have hz := List.countP_eq_zero.mp hz2 y (mem_ordersOf_of_mem_level h3 hy)
        simpa using hz
  intro x hx
  split_ifs at hx with hemp
  · obtain ⟨l, hl, hne, hxin⟩ := mem_ordersOf_removeLevel_strong hx
    exact hother l hl hne x hxin
  · rcases mem_ordersOf_setLevel_strong hx with ⟨l, hl, hne, hxin⟩ | hxos
    · exact hother l hl hne x hxin
    · have hz := eraseP_no_sat _ os hos1 x hxos
      simpa using hz

/-- C5 (amended): cancelling an order that is resting in the book
removes it from the book and commits status CANCELLED with
`is_active = False`, but leaves `remaining_quantity` (and the other
quantity fields) untouched — the claimed `remaining_quantity = 0` does
not hold (see the counterexample). -/
theorem C5_cancel_amended (bk : Book) (oid : ℕ)
    (hnb : (levelKeys bk.bids).Nodup) (hna : (levelKeys bk.asks).Nodup)
    (hu : idsUniqueBook bk) (p : ℚ) (o : Order)
    (hf : findInSide bk.bids oid = some (p, o) ∨
          (findInSide bk.bids oid = none ∧ findInSide bk.asks oid = some (p, o))) :
    ∃ bk' o', cancel_order bk oid = (bk', some o') ∧
      o'.status = .Cancelled ∧ o'.is_active = false ∧
      o'.remaining_quantity = o.remaining_quantity ∧
      o'.traded_quantity = o.traded_quantity ∧ o'.quantity = o.quantity ∧
      ∀ x ∈ bookOrders bk', x.order_id ≠ oid := by
  have hu2 : ((ordersOf bk.bids).map Order.order_id ++
      (ordersOf bk.asks).map Order.order_id).Nodup := by
    have h := hu
    unfold idsUniqueBook bookOrders at h
    rwa [List.map_append] at h
  rw [List.nodup_append] at hu2
  obtain ⟨hub, hua, hdisj⟩ := hu2
  rcases hf with hfb | ⟨hfb0, hfa⟩
  · obtain ⟨os, hmem, ho, hid⟩ := findInSide_level hfb
    refine ⟨{ bk with bids := cancelSideResult bk.bids p oid },
      { o with status := .Cancelled, is_active := false },
      ?_, rfl, rfl, rfl, rfl, rfl, ?_⟩
    · simp only [cancel_order, hfb]
    · intro x hx
      unfold bookOrders at hx
      rcases List.mem_append.mp hx with hxb | hxa
      · exact cancel_side_clean hnb hmem ho hid
          (countP_le_one_of_nodup_map _ oid hub) x hxb
      · intro hxe
        have m1 : oid ∈ (ordersOf bk.bids).map Order.order_id := by
          rw [← hid]; exact List.mem_map_of_mem _ ((findInSide_mem hfb).1)
        have m2 : oid ∈ (ordersOf bk.asks).map Order.order_id := by
          rw [← hxe]; exact List.mem_map_of_mem _ hxa
        exact hdisj m1 m2
  · obtain ⟨os, hmem, ho, hid⟩ := findInSide_level hfa
    refine ⟨{ bk with asks := cancelSideResult bk.asks p oid },
      { o with status := .Cancelled, is_active := false },
      ?_, rfl, rfl, rfl, rfl, rfl, ?_⟩
    · simp only [cancel_order, hfb0, hfa]
    · intro x hx
      unfold bookOrders at hx
      rcases List.mem_append.mp hx with hxb | hxa
      · intro hxe
        have m1 : oid ∈ (ordersOf bk.bids).map Order.order_id := by
          rw [← hxe]; exact List.mem_map_of_mem _ hxb
        have m2 : oid ∈ (ordersOf bk.asks).map Order.order_id := by
          rw [← hid]; exact List.mem_map_of_mem _ ((findInSide_mem hfa).1)
        exact hdisj m1 m2
      · exact cancel_side_clean hna hmem ho hid
          (countP_le_one_of_nodup_map _ oid hua) x hxa

/-- Witness for C5 (amended) on a one-order book. -/
theorem C5_cancel_amended_witness :
    ∃ bk' o', cancel_order demoBook5 7 = (bk', some o') ∧
      o'.status = .Cancelled ∧ o'.is_active = false ∧
      o'.remaining_quantity = demoBid5.remaining_quantity ∧
      o'.traded_quantity = demoBid5.traded_quantity ∧
      o'.quantity = demoBid5.quantity ∧
      ∀ x ∈ bookOrders bk', x.order_id ≠ 7 :=
  C5_cancel_amended demoBook5 7 (by decide) (by decide) (by decide) 100 demoBid5
    (Or.inl (by decide))

/-- C6 (amended): within the valid depth range the snapshot returns, per
side, the first `depth` *individual orders* (filtered to
ACTIVE/PARTIALLY_FILLED with positive remaining quantity, bids ordered
by descending price then arrival, asks ascending), each entry carrying
that single order's own `remaining_quantity` — not price levels
aggregated over all orders at a price. -/
theorem C6_snapshot_amended (db : List Order) (depth : ℕ)
    (h1 : 1 ≤ depth) (h2 : depth ≤ 20) :
    ∃ bl sl, orderBookSnapshotView db depth = Except.ok (bl, sl) ∧
      bl.length ≤ depth ∧ sl.length ≤ depth ∧
      (∀ e ∈ bl, ∃ o ∈ db, o.side = 1 ∧ snapActive o = true ∧
        e = snapEntryOf o) ∧
      (∀ e ∈ sl, ∃ o ∈ db, o.side = -1 ∧ snapActive o = true ∧
        e = snapEntryOf o) ∧
      (bl.map SnapEntry.price).Sorted (· ≥ ·) ∧
      (sl.map SnapEntry.price).Sorted (· ≤ ·) := by
  refine ⟨(snapshotBuyOrders db depth).map snapEntryOf,
    (snapshotSellOrders db depth).map snapEntryOf, ?_, ?_, ?_, ?_, ?_, ?_, ?_⟩
  · unfold orderBookSnapshotView
    rw [if_neg (by omega)]
  · rw [List.length_map, snapshotBuyOrders, List.length_take]
    exact min_le_left _ _
  · rw [List.length_map, snapshotSellOrders, List.length_take]
    exact min_le_left _ _
  · intro e he
    rw [List.mem_map] at he
    obtain ⟨o, ho, hoe⟩ := he
    have hmem := List.mem_of_mem_take (l := (db.filter
      (fun o => decide (o.side = 1) && snapActive o)).insertionSort snapBuyLE) ho
    rw [List.mem_insertionSort, List.mem_filter] at hmem
    obtain ⟨hdb, hpred⟩ := hmem
    rw [Bool.and_eq_true, decide_eq_true_eq] at hpred
    exact ⟨o, hdb, hpred.1, hpred.2, hoe.symm⟩
  · intro e he
    rw [List.mem_map] at he
    obtain ⟨o, ho, hoe⟩ := he
    have hmem := List.mem_of_mem_take (l := (db.filter
      (fun o => decide (o.side = -1) && snapActive o)).insertionSort snapSellLE) ho
    rw [List.mem_insertionSort, List.mem_filter] at hmem
    obtain ⟨hdb, hpred⟩ := hmem
    rw [Bool.and_eq_true, decide_eq_true_eq] at hpred
    exact ⟨o, hdb, hpred.1, hpred.2, hoe.symm⟩
  · rw [List.map_map]
    have hs := List.sorted_insertionSort snapBuyLE
      (db.filter (fun o => decide (o.side = 1) && snapActive o))
    have hst : (snapshotBuyOrders db depth).Sorted snapBuyLE :=
      List.Pairwise.sublist (List.take_sublist _ _) hs
    refine List.Pairwise.map _ ?_ hst
    intro a b hab
    rcases hab with hlt | ⟨heq, -⟩
    · exact le_of_lt hlt
    · exact le_of_eq heq.symm
  · rw [List.map_map]
    have hs := List.sorted_insertionSort snapSellLE
      (db.filter (fun o => decide (o.side = -1) && snapActive o))
    have hst : (snapshotSellOrders db depth).Sorted snapSellLE :=
      List.Pairwise.sublist (List.take_sublist _ _) hs
    refine List.Pairwise.map _ ?_ hst
    intro a b hab
    rcases hab with hlt | ⟨heq, -⟩
    · exact le_of_lt hlt
    · exact le_of_eq heq

/-- Witness for C6 (amended) at depth 1 over the two-order database. -/
theorem C6_snapshot_amended_witness :
    ∃ bl sl, orderBookSnapshotView demoDb6 1 = Except.ok (bl, sl) ∧
      bl.length ≤ 1 ∧ sl.length ≤ 1 ∧
      (∀ e ∈ bl, ∃ o ∈ demoDb6, o.side = 1 ∧ snapActive o = true ∧
        e = snapEntryOf o) ∧
      (∀ e ∈ sl, ∃ o ∈ demoDb6, o.side = -1 ∧ snapActive o = true ∧
        e = snapEntryOf o) ∧
      (bl.map SnapEntry.price).Sorted (· ≥ ·) ∧
      (sl.map SnapEntry.price).Sorted (· ≤ ·) :=
  C6_snapshot_amended demoDb6 1 (by decide) (by decide)

lemma saveOrder_traded (o : Order) :
    (saveOrder o).traded_quantity = o.traded_quantity := rfl

lemma saveOrder_remaining (o : Order) :
    (saveOrder o).remaining_quantity = o.remaining_quantity := rfl

lemma saveOrder_avg (o : Order) :
    (saveOrder o).average_traded_price = quantize2 o.average_traded_price := rfl

lemma applyFill_avg (o : Order) (q : ℕ) (p : ℚ) :
    (applyFill o q p).average_traded_price =
      if 0 < o.traded_quantity + q then
        (o.average_traded_price * ((o.traded_quantity : ℕ) : ℚ) +
          p * (q : ℚ)) / ((o.traded_quantity + q : ℕ) : ℚ)
      else o.average_traded_price := by
  simp only [applyFill, Nat.add_sub_cancel]
  split_ifs <;> rfl

lemma fillsQty_append (f1 f2 : List (ℕ × ℚ)) :
    fillsQty (f1 ++ f2) = fillsQty f1 + fillsQty f2 := by
  simp [fillsQty]

lemma fillsValue_append (f1 f2 : List (ℕ × ℚ)) :
    fillsValue (f1 ++ f2) = fillsValue f1 + fillsValue f2 := by
  simp [fillsValue]

lemma fillsValue_eq_zero (fs : List (ℕ × ℚ)) (h : fillsQty fs = 0) :
    fillsValue fs = 0 := by
  induction fs with
  | nil => rfl
  | cons f t ih =>
    rw [fillsQty] at h
    simp only [List.map_cons, List.sum_cons] at h
    have hf : f.1 = 0 := by omega
    have ht : fillsQty t = 0 := by unfold fillsQty; omega
    rw [fillsValue]
    simp only [List.map_cons, List.sum_cons, hf]
    rw [show ((0 : ℕ) : ℚ) * f.2 = 0 by simp, zero_add]
    exact ih ht

/-- One exact step of the running average. -/
lemma exactVWAP_snoc (done : List (ℕ × ℚ)) (q : ℕ) (p : ℚ) :
    exactVWAP (done ++ [(q, p)]) =
      (exactVWAP done * ((fillsQty done : ℕ) : ℚ) + p * (q : ℚ)) /
        ((fillsQty done + q : ℕ) : ℚ) := by
  rw [exactVWAP, fillsValue_append, fillsQty_append, exactVWAP]
  by_cases h0 : fillsQty done = 0
  · rw [h0, fillsValue_eq_zero done h0]
    simp [fillsValue, fillsQty, mul_comm]
  · rw [div_mul_cancel₀ _ (by exact_mod_cast h0)]
    simp [fillsValue, fillsQty, mul_comm]

lemma runFillsStored_exact_aux :
    ∀ (fills done : List (ℕ × ℚ)) (o : Order),
      o.traded_quantity = fillsQty done →
      o.average_traded_price = exactVWAP done →
      fillsQty fills ≤ o.remaining_quantity →
      (∀ k < fills.length,
        quantize2 (exactVWAP (done ++ fills.take (k + 1))) =
          exactVWAP (done ++ fills.take (k + 1))) →
      ∃ oF, runFillsStored o fills = some oF ∧
        oF.average_traded_price = exactVWAP (done ++ fills) := by
  intro fills
  induction fills with
  | nil =>
    intro done o h1 h2 h3 h4
    exact ⟨o, rfl, by rw [List.append_nil]; exact h2⟩
  | cons f fs ih =>
    intro done o h1 h2 h3 h4
    obtain ⟨q, p⟩ := f
    have hqfs : fillsQty ((q, p) :: fs) = q + fillsQty fs := by
      simp [fillsQty]
    have hq : q ≤ o.remaining_quantity := by omega
    rw [runFillsStored, update_trade_eq_applyFill o q p hq]
    have havg : (applyFill o q p).average_traded_price =
        exactVWAP (done ++ [(q, p)]) := by
      rw [applyFill_avg, exactVWAP_snoc, h1, h2]
      by_cases hpos : 0 < fillsQty done + q
      · rw [if_pos hpos]
      · rw [if_neg hpos]
        have hd0 : fillsQty done = 0 := by omega
        have hq0 : q = 0 := by omega
        rw [h2] at *
        rw [hd0, hq0]
        rw [exactVWAP, hd0, fillsValue_eq_zero done hd0]
        simp
    have hfix : quantize2 (exactVWAP (done ++ [(q, p)])) =
        exactVWAP (done ++ [(q, p)]) := by
      have := h4 0 (by simp)
      simpa using this
    have heq : exactVWAP (done ++ [(q, p)] ++ fs) =
        exactVWAP (done ++ (q, p) :: fs) := by
      rw [List.append_assoc]
      rfl
    rw [← heq]
    apply ih (done ++ [(q, p)])
    · rw [saveOrder_traded, applyFill_traded, h1, fillsQty_append]
      simp [fillsQty]
    · rw [saveOrder_avg, havg, hfix]
    · rw [saveOrder_remaining, applyFill_remaining]
      omega
    · intro k hk
      have := h4 (k + 1) (by simpa using Nat.succ_lt_succ hk)
      rw [List.take_succ_cons] at this
      rw [List.append_assoc]
      simpa using this

/-- C7 (amended): `update_trade` recomputes the running average from the
previously *stored* average, and the stored `average_traded_price`
column is quantized to two decimals on every save.  Whenever every
intermediate exact running average is already representable with two
decimals (the quantization fixes it), the stored average equals the
exact quotient `Σ qᵢ·pᵢ / Σ qᵢ`; with a non-representable intermediate
average the stored value drifts (see the counterexample). -/
theorem C7_vwap_amended (fills : List (ℕ × ℚ)) (o : Order)
    (ht : o.traded_quantity = 0) (ha : o.average_traded_price = 0)
    (hr : fillsQty fills ≤ o.remaining_quantity)
    (hq : ∀ k < fills.length,
      quantize2 (exactVWAP (fills.take (k + 1))) =
        exactVWAP (fills.take (k + 1))) :
    ∃ oF, runFillsStored o fills = some oF ∧
      oF.average_traded_price = exactVWAP fills := by
  have h := runFillsStored_exact_aux fills [] o
    (by simpa [fillsQty] using ht)
    (by rw [ha]; simp [exactVWAP, fillsValue, fillsQty])
    hr (by simpa using hq)
  simpa using h

/-- Witness for C7 (amended): two fills whose running averages are both
two-decimal values. -/
theorem C7_vwap_amended_witness :
    ∃ oF, runFillsStored demoOrder7 [(2, 10), (2, 11)] = some oF ∧
      oF.average_traded_price = exactVWAP [(2, 10), (2, 11)] :=
  C7_vwap_amended [(2, 10), (2, 11)] demoOrder7 rfl rfl (by decide)
    (by
      intro k hk
      match k with
      | 0 => norm_num [exactVWAP, fillsValue, fillsQty, quantize2, rhe]
      | 1 => norm_num [exactVWAP, fillsValue, fillsQty, quantize2, rhe]
      | n + 2 => simp at hk)
